import Mathlib

/-!
Verification development for the pokedb generation-aware reconstruction
engine.  The definitions below are shallow embeddings of the Python source:
the caching API client (api_client.py), the concurrent parser runner
(parsers/base.py), the temporal projection of move past values
(parsers/move.py), the scraped historical changes for species
(parsers/pokemon.py), the evolution chain pruning (parsers/pokemon.py), the
generation-wise resource discovery (parsers/generation.py and __main__.py)
and the change scraper rule table (scraper.py).  The theorems settle the
specified properties of these components.
-/

namespace PokeDB

/-- A JSON-like scalar value as stored in the cleaned data dictionaries:
either null, a number, or a string. -/
inductive JValue where
  | null
  | num (n : Int)
  | str (s : String)
deriving DecidableEq

/-- Python dict lookup with a default, for dicts built by comprehension with
later bindings overwriting earlier ones: the value of the last binding of the
key, or the default. -/
def dictGet (l : List (String × Nat)) (k : String) (d : Nat) : Nat :=
  l.foldl (fun acc p => if p.1 = k then p.2 else acc) d

/-- Lookup of a generation number in the generation to version groups index,
returning the empty list when the generation is absent; models
generation_version_groups.get(gen, []). -/
def dictGetVgs (gvg : List (Nat × List String)) (g : Nat) : List String :=
  gvg.foldl (fun acc p => if p.1 = g then p.2 else acc) []

/-- build_version_group_to_generation_map from utils/text_utils.py: the dict
comprehension pairing every version group name with the generation whose list
it appears in, later generations overwriting earlier duplicates. -/
def buildVersionGroupToGenerationMap (gvg : List (Nat × List String)) :
    List (String × Nat) :=
  gvg.foldl (fun acc p => acc ++ p.2.map (fun vg => (vg, p.1))) []

/-- Stable insertion into a list ordered by a numeric key: the new element
goes after every element whose key is at most its own. -/
def insertByKey {α : Type} (key : α → Nat) (x : α) : List α → List α
  | [] => [x]
  | y :: ys => if key x < key y then x :: y :: ys else y :: insertByKey key x ys

/-- Stable sort by a numeric key, modelling the Python sorted builtin with a
key function (equal keys keep their input order). -/
def sortByKey {α : Type} (key : α → Nat) (l : List α) : List α :=
  l.foldl (fun acc x => insertByKey key x acc) []

/-- One entry of an effect_entries list from the API, with the language name
and the effect and short_effect texts. -/
structure EffectEntry where
  language : String
  effect : String
  shortEffect : String
deriving DecidableEq

/-- Whitespace normalization applied to every extracted English text in
text_utils.py: split on whitespace and rejoin the nonempty pieces with single
spaces. -/
def normalizeWs (s : String) : String :=
  String.intercalate " " ((s.split Char.isWhitespace).filter (fun w => w ≠ ""))

/-- get_english_entry from utils/text_utils.py for the call sites that pass no
generation information (the fallback path): the first entry whose language is
en yields its normalized text. -/
def getEnglishEntry (entries : List EffectEntry) (sel : EffectEntry → String) :
    Option String :=
  (entries.find? (fun e => e.language == "en")).map (fun e => normalizeWs (sel e))

/-- One entry of a move past_values list from the API.  Numeric fields are
optional JSON numbers, type carries the nested type name when present, and
effectEntries is the nested effect_entries list. -/
structure PastValue where
  versionGroup : String
  accuracy : Option Int
  power : Option Int
  pp : Option Int
  effectChance : Option Int
  type : Option String
  effectEntries : List EffectEntry
deriving DecidableEq

/-- The working copy of the seven changeable move fields built at the top of
the version group loop of MoveParser._apply_past_values. -/
structure MoveTemp where
  accuracy : JValue
  power : JValue
  pp : JValue
  effectChance : JValue
  type : JValue
  effect : JValue
  shortEffect : JValue
deriving DecidableEq

/-- Names of the seven changeable move fields (the change_fields list of
MoveParser._apply_past_values). -/
inductive MoveField where
  | accuracy | power | pp | effectChance | type | effect | shortEffect
deriving DecidableEq

/-- Field projection out of the working copy. -/
def MoveTemp.get (t : MoveTemp) : MoveField → JValue
  | .accuracy => t.accuracy
  | .power => t.power
  | .pp => t.pp
  | .effectChance => t.effectChance
  | .type => t.type
  | .effect => t.effect
  | .shortEffect => t.shortEffect

/-- Replaying one past value entry onto the working copy, as in the body of
the replay loop of MoveParser._apply_past_values: each field the entry
specifies overwrites; fields it does not mention keep their value.  The effect
texts are applied only when the entry carries effect_entries and the extracted
text is truthy. -/
def applyPastValue (t : MoveTemp) (pv : PastValue) : MoveTemp :=
  let t1 := match pv.accuracy with
    | some a => { t with accuracy := .num a }
    | none => t
  let t2 := match pv.power with
    | some p => { t1 with power := .num p }
    | none => t1
  let t3 := match pv.pp with
    | some p => { t2 with pp := .num p }
    | none => t2
  let t4 := match pv.effectChance with
    | some c => { t3 with effectChance := .num c }
    | none => t3
  let t5 := match pv.type with
    | some ty => { t4 with type := .str ty }
    | none => t4
  if pv.effectEntries.isEmpty then t5
  else
    let eff := getEnglishEntry pv.effectEntries (fun e => e.effect)
    let sEff := getEnglishEntry pv.effectEntries (fun e => e.shortEffect)
    let t6 := match eff with
      | some s => if s ≠ "" then { t5 with effect := .str s } else t5
      | none => t5
    match sEff with
    | some s => if s ≠ "" then { t6 with shortEffect := .str s } else t6
    | none => t6

/-- The replay loop of MoveParser._apply_past_values: walk the sorted past
values in order and stop (break) at the first entry whose mapped generation
exceeds the generation of the current version group; every earlier entry is
applied. -/
def replayPastValues (vgToGen : List (String × Nat)) (vgGen : Nat) :
    List PastValue → MoveTemp → MoveTemp
  | [], t => t
  | pv :: rest, t =>
    if dictGet vgToGen pv.versionGroup 999 > vgGen then t
    else replayPastValues vgToGen vgGen rest (applyPastValue t pv)

/-- The per version group computation of MoveParser._apply_past_values: start
from the current cleaned values, keep the past values whose mapped generation
is at most the target generation, stable-sort them by mapped generation, and
replay them with the break at the generation of this version group (an unknown
version group maps to 999 in the filter and sort and to 0 for the break). -/
def computeVgTemp (current : MoveTemp) (pastValues : List PastValue)
    (vgToGen : List (String × Nat)) (targetGen : Nat) (vgName : String) :
    MoveTemp :=
  let filtered := pastValues.filter
    (fun pv => dictGet vgToGen pv.versionGroup 999 ≤ targetGen)
  let sortedPvs := sortByKey
    (fun pv => dictGet vgToGen pv.versionGroup 999) filtered
  replayPastValues vgToGen (dictGet vgToGen vgName 0) sortedPvs current

/-- The generation_specific_values map of one field after the version group
loop of MoveParser._apply_past_values: one entry per version group of the
target generation, in order, holding that version group's replayed value. -/
def movePastValuesMap (current : MoveTemp) (pastValues : List PastValue)
    (gvg : List (Nat × List String)) (targetGen : Nat) (f : MoveField) :
    List (String × JValue) :=
  let vgToGen := buildVersionGroupToGenerationMap gvg
  (dictGetVgs gvg targetGen).map
    (fun vg => (vg, (computeVgTemp current pastValues vgToGen targetGen vg).get f))

/-- Shape of an emitted temporally sensitive field: a single scalar or a map
keyed by version group name. -/
inductive FieldOut where
  | scalar (v : JValue)
  | byVersionGroup (m : List (String × JValue))
deriving DecidableEq

/-- The output shape of a changeable move field after
MoveParser._apply_past_values: when the guard at the top passes (nonzero
target generation and nonempty index), the field is unconditionally replaced
by the per version group dictionary; otherwise the method returns early and
the field keeps its scalar value. -/
def emittedMoveField (current : MoveTemp) (pastValues : List PastValue)
    (gvg : List (Nat × List String)) (targetGen : Nat) (f : MoveField) :
    FieldOut :=
  if targetGen = 0 ∨ gvg = [] then .scalar (current.get f)
  else .byVersionGroup (movePastValuesMap current pastValues gvg targetGen f)

/-- A definition following the words of the spec collapsing rule of section
4.3, stated for comparison with the emitted shape: when every version group of
the target epoch computed the same value the field collapses to that scalar,
otherwise the version group map is kept. -/
def specCollapseMoveField (m : List (String × JValue)) : FieldOut :=
  match m with
  | [] => .byVersionGroup []
  | (_, v) :: rest =>
    if rest.all (fun p => p.2 == v) then .scalar v else .byVersionGroup m

/-- The epoch index of the end-to-end scenario of the spec: generation 1 has
version group vgA and generation 2 has version groups vgB and vgC. -/
def scenarioGvg : List (Nat × List String) := [(1, ["vgA"]), (2, ["vgB", "vgC"])]

/-- Current values of the scenario record: power 100, everything else null. -/
def scenarioCurrent : MoveTemp :=
  ⟨.null, .num 100, .null, .null, .null, .null, .null⟩

/-- The single override event of the scenario: version group vgB sets power
to 70. -/
def scenarioEvent : PastValue := ⟨"vgB", none, some 70, none, none, none, []⟩

theorem mem_insertByKey {α : Type} (key : α → Nat) (x b : α) (l : List α)
    (h : b ∈ insertByKey key x l) : b = x ∨ b ∈ l := by
  induction l with
  | nil => simpa [insertByKey] using h
  | cons y ys ih =>
    rw [insertByKey] at h
    by_cases hxy : key x < key y
    · rw [if_pos hxy] at h
      rcases List.mem_cons.mp h with rfl | h
      · exact Or.inl rfl
      · exact Or.inr h
    · rw [if_neg hxy] at h
      rcases List.mem_cons.mp h with rfl | h
      · exact Or.inr (List.mem_cons_self _ _)
      · rcases ih h with rfl | hb
        · exact Or.inl rfl
        · exact Or.inr (List.mem_cons_of_mem _ hb)

theorem pairwise_insertByKey {α : Type} (key : α → Nat) (x : α) (l : List α)
    (h : l.Pairwise (fun a b => key a ≤ key b)) :
    (insertByKey key x l).Pairwise (fun a b => key a ≤ key b) := by
  induction l with
  | nil => simp [insertByKey]
  | cons y ys ih =>
    rw [List.pairwise_cons] at h
    obtain ⟨hy, hys⟩ := h
    rw [insertByKey]
    by_cases hxy : key x < key y
    · rw [if_pos hxy]
      refine List.Pairwise.cons ?_ (List.Pairwise.cons hy hys)
      intro b hb
      rcases List.mem_cons.mp hb with rfl | hb
      · exact le_of_lt hxy
      · exact le_trans (le_of_lt hxy) (hy b hb)
    · rw [if_neg hxy]
      refine List.Pairwise.cons ?_ (ih hys)
      intro b hb
      rcases mem_insertByKey key x b ys hb with rfl | hb
      · exact le_of_not_lt hxy
      · exact hy b hb

theorem pairwise_sortByKey {α : Type} (key : α → Nat) (l : List α) :
    (sortByKey key l).Pairwise (fun a b => key a ≤ key b) := by
  rw [sortByKey]
  suffices h : ∀ acc : List α, acc.Pairwise (fun a b => key a ≤ key b) →
      (l.foldl (fun acc x => insertByKey key x acc) acc).Pairwise
        (fun a b => key a ≤ key b) from h [] (by simp)
  induction l with
  | nil => intro acc hacc; simpa using hacc
  | cons x xs ih =>
    intro acc hacc
    exact ih _ (pairwise_insertByKey key x acc hacc)

theorem replayPastValues_eq_foldl (vgToGen : List (String × Nat)) (vgGen : Nat)
    (l : List PastValue) (t : MoveTemp)
    (h : l.Pairwise (fun a b =>
      dictGet vgToGen a.versionGroup 999 ≤ dictGet vgToGen b.versionGroup 999)) :
    replayPastValues vgToGen vgGen l t =
      (l.filter (fun pv => dictGet vgToGen pv.versionGroup 999 ≤ vgGen)).foldl
        applyPastValue t := by
  induction l generalizing t with
  | nil => rfl
  | cons pv rest ih =>
    rw [List.pairwise_cons] at h
    obtain ⟨hpv, hrest⟩ := h
    rw [replayPastValues]
    by_cases hgt : dictGet vgToGen pv.versionGroup 999 > vgGen
    · rw [if_pos hgt]
      have hfilter : (pv :: rest).filter
          (fun pv => dictGet vgToGen pv.versionGroup 999 ≤ vgGen) = [] := by
        have h1 : ¬ dictGet vgToGen pv.versionGroup 999 ≤ vgGen := not_le.mpr hgt
        rw [List.filter_cons_of_neg (by simpa using h1), List.filter_eq_nil_iff]
        intro a ha
        have h2 := hpv a ha
        simp only [decide_eq_true_eq]
        omega
      rw [hfilter, List.foldl_nil]
    · rw [if_neg hgt]
      have hle : dictGet vgToGen pv.versionGroup 999 ≤ vgGen := not_lt.mp hgt
      rw [List.filter_cons_of_pos (by simpa using hle), List.foldl_cons]
      exact ih (applyPastValue t pv) hrest

/-- C1 (amended): in MoveParser._apply_past_values, a past value is applied to
a version group exactly when its mapped generation is at most the version
group's own generation, among the events whose generation is at most the
target generation — the stable sort makes the break equivalent to a filter —
and in the end-to-end scenario of the spec (epoch index vgA in 1, vgB and vgC
in 2, power 100, one event on vgB setting power 70, target 2) the projected
power map is vgB 70 and vgC 70, because vgC is also of generation 2. -/
theorem c1_replay_up_to_epoch :
    (∀ (current : MoveTemp) (pastValues : List PastValue)
        (vgToGen : List (String × Nat)) (targetGen : Nat) (vgName : String),
      computeVgTemp current pastValues vgToGen targetGen vgName =
        ((sortByKey (fun pv => dictGet vgToGen pv.versionGroup 999)
            (pastValues.filter
              (fun pv => dictGet vgToGen pv.versionGroup 999 ≤ targetGen))).filter
          (fun pv => dictGet vgToGen pv.versionGroup 999
            ≤ dictGet vgToGen vgName 0)).foldl applyPastValue current) ∧
    movePastValuesMap scenarioCurrent [scenarioEvent] scenarioGvg 2 .power
      = [("vgB", .num 70), ("vgC", .num 70)] := by
  constructor
  · intro current pastValues vgToGen targetGen vgName
    exact replayPastValues_eq_foldl vgToGen (dictGet vgToGen vgName 0) _ current
      (pairwise_sortByKey _ _)
  · decide

/-- C1 counterexample: in the end-to-end scenario the code maps vgC to 70,
not to the claimed 100, because the event on vgB has mapped generation 2 which
is at most the generation of vgC. -/
theorem c1_counterexample :
    List.lookup "vgC"
        (movePastValuesMap scenarioCurrent [scenarioEvent] scenarioGvg 2 .power)
      = some (.num 70) ∧
    movePastValuesMap scenarioCurrent [scenarioEvent] scenarioGvg 2 .power
      ≠ [("vgB", .num 70), ("vgC", .num 100)] := by
  exact ⟨by decide, by decide⟩

/-- C2 counterexample: with no past values and two version groups in the
target generation, every version group computes the same value, yet the code
emits the field as a version group map while the spec collapsing rule demands
a scalar. -/
theorem c2_counterexample :
    emittedMoveField scenarioCurrent [] scenarioGvg 2 .power
      = .byVersionGroup [("vgB", .num 100), ("vgC", .num 100)] ∧
    specCollapseMoveField (movePastValuesMap scenarioCurrent [] scenarioGvg 2 .power)
      = .scalar (.num 100) ∧
    emittedMoveField scenarioCurrent [] scenarioGvg 2 .power
      ≠ specCollapseMoveField
          (movePastValuesMap scenarioCurrent [] scenarioGvg 2 .power) := by
  exact ⟨by decide, by decide, by decide⟩

/-- C2 (amended): whenever the guard of MoveParser._apply_past_values passes
(nonzero target generation, nonempty epoch index), every changeable field is
emitted as a version group map whose keys are exactly the target generation's
version groups in order; no scalar collapsing ever happens, even when all the
values agree. -/
theorem c2_always_version_group_map (current : MoveTemp)
    (pastValues : List PastValue) (gvg : List (Nat × List String))
    (targetGen : Nat) (h1 : targetGen ≠ 0) (h2 : gvg ≠ []) (f : MoveField) :
    emittedMoveField current pastValues gvg targetGen f
      = .byVersionGroup (movePastValuesMap current pastValues gvg targetGen f) ∧
    (movePastValuesMap current pastValues gvg targetGen f).map Prod.fst
      = dictGetVgs gvg targetGen := by
  constructor
  · simp [emittedMoveField, h1, h2]
  · simp only [movePastValuesMap, List.map_map]
    exact List.map_id _

/-- Witness for C2: the amended statement applied to the concrete scenario. -/
theorem c2_always_version_group_map_witness :
    (2 ≠ 0) ∧ scenarioGvg ≠ [] ∧
    (emittedMoveField scenarioCurrent [] scenarioGvg 2 .pp
        = .byVersionGroup (movePastValuesMap scenarioCurrent [] scenarioGvg 2 .pp) ∧
      (movePastValuesMap scenarioCurrent [] scenarioGvg 2 .pp).map Prod.fst
        = dictGetVgs scenarioGvg 2) :=
  ⟨by decide, by decide,
    c2_always_version_group_map scenarioCurrent [] scenarioGvg 2
      (by decide) (by decide) .pp⟩

/-- C10: when every version group of the target generation maps to the target
generation itself in the version group to generation map, the per version
group value of every field is the same across the whole target generation —
the filter, sort key and break depend only on the version group's generation —
so every emitted version group map is constant. -/
theorem c10_constant_within_generation (current : MoveTemp)
    (pastValues : List PastValue) (gvg : List (Nat × List String))
    (targetGen : Nat)
    (h : ∀ vg ∈ dictGetVgs gvg targetGen,
      dictGet (buildVersionGroupToGenerationMap gvg) vg 0 = targetGen)
    (f : MoveField) :
    ∀ p ∈ movePastValuesMap current pastValues gvg targetGen f,
      ∀ q ∈ movePastValuesMap current pastValues gvg targetGen f, p.2 = q.2 := by
  intro p hp q hq
  simp only [movePastValuesMap, List.mem_map] at hp hq
  obtain ⟨vg1, hvg1, rfl⟩ := hp
  obtain ⟨vg2, hvg2, rfl⟩ := hq
  have e1 := h vg1 hvg1
  have e2 := h vg2 hvg2
  simp only [computeVgTemp, e1, e2]

/-- Witness for C10: the hypothesis holds in the concrete scenario, and the
power map of the scenario is indeed constant. -/
theorem c10_constant_within_generation_witness :
    (∀ vg ∈ dictGetVgs scenarioGvg 2,
      dictGet (buildVersionGroupToGenerationMap scenarioGvg) vg 0 = 2) ∧
    (∀ p ∈ movePastValuesMap scenarioCurrent [scenarioEvent] scenarioGvg 2 .power,
      ∀ q ∈ movePastValuesMap scenarioCurrent [scenarioEvent] scenarioGvg 2 .power,
        p.2 = q.2) :=
  ⟨by decide,
    c10_constant_within_generation scenarioCurrent [scenarioEvent] scenarioGvg 2
      (by decide) .power⟩

/-- A discovered resource reference, with its name and fetch url; never
mutated after discovery. -/
structure ResourceRef where
  name : String
  url : String
deriving DecidableEq

/-- A summary entry returned by a successful process call. -/
structure Summary where
  name : String
  id : Nat
deriving DecidableEq

/-- The possible results of one process call as interpreted by the collection
loop of BaseParser.run: a summary dictionary, a list of summaries, an error
string, or None, which the loop skips without recording anything. -/
inductive ProcResult where
  | success (s : Summary)
  | successList (l : List Summary)
  | failure (e : String)
  | skip
deriving DecidableEq

/-- The two accumulators of BaseParser.run: summary_data and errors. -/
structure RunOutcome where
  summaryData : List Summary
  errors : List String
deriving DecidableEq

/-- One step of the result collection loop of BaseParser.run: a dict result is
appended to the summary list, a list result extends it, an error string is
recorded, and a None result contributes nothing. -/
def collectStep (acc : RunOutcome) (r : ProcResult) : RunOutcome :=
  match r with
  | .success s => { acc with summaryData := acc.summaryData ++ [s] }
  | .successList l => { acc with summaryData := acc.summaryData ++ l }
  | .failure e => { acc with errors := acc.errors ++ [e] }
  | .skip => acc

/-- The collection loop of BaseParser.run over all completed results. -/
def collectResults (results : List ProcResult) : RunOutcome :=
  results.foldl collectStep ⟨[], []⟩

/-- BaseParser.run on the non pokemon path: process every reference, collect
the results, and sort the summary list by numeric id.  Completion order is
abstracted to submission order; the settled claims concern the collected
entries, which completion order permutes at most. -/
def runParser (process : ResourceRef → ProcResult) (refs : List ResourceRef) :
    RunOutcome :=
  let outcome := collectResults (refs.map process)
  { outcome with summaryData := sortByKey (fun s => s.id) outcome.summaryData }

/-- Number of summary entries one result contributes to the run outcome. -/
def contribution : ProcResult → Nat
  | .success _ => 1
  | .successList l => l.length
  | .failure _ => 0
  | .skip => 0

/-- Whether a result is an error string. -/
def ProcResult.isFailure : ProcResult → Bool
  | .failure _ => true
  | _ => false

theorem length_insertByKey {α : Type} (key : α → Nat) (x : α) (l : List α) :
    (insertByKey key x l).length = l.length + 1 := by
  induction l with
  | nil => rfl
  | cons y ys ih =>
    rw [insertByKey]
    by_cases hxy : key x < key y
    · rw [if_pos hxy]; rfl
    · rw [if_neg hxy]
      simp [ih]

theorem length_sortByKey {α : Type} (key : α → Nat) (l : List α) :
    (sortByKey key l).length = l.length := by
  rw [sortByKey]
  suffices h : ∀ acc : List α,
      (l.foldl (fun acc x => insertByKey key x acc) acc).length
        = acc.length + l.length from by simpa using h []
  induction l with
  | nil => intro acc; simp
  | cons x xs ih =>
    intro acc
    rw [List.foldl_cons, ih (insertByKey key x acc), length_insertByKey]
    simp only [List.length_cons]
    omega

theorem collect_foldl_counts (results : List ProcResult) (acc : RunOutcome) :
    ((results.foldl collectStep acc).summaryData.length
        = acc.summaryData.length + (results.map contribution).sum) ∧
    ((results.foldl collectStep acc).errors.length
        = acc.errors.length + results.countP ProcResult.isFailure) := by
  induction results generalizing acc with
  | nil => simp
  | cons r rest ih =>
    rw [List.foldl_cons]
    obtain ⟨ih1, ih2⟩ := ih (collectStep acc r)
    constructor
    · rw [ih1]
      cases r <;> simp [collectStep, contribution] <;> omega
    · rw [ih2]
      cases r <;> simp [collectStep, ProcResult.isFailure, List.countP_cons] <;>
        omega

/-- The single reference of the C3 counterexample. -/
def missingnoRef : ResourceRef := ⟨"missingno", "url-missingno"⟩

/-- A process function that returns None for every reference, as
PokemonParser.process and ItemParser.process do for entries without game
indices. -/
def skipProcess : ResourceRef → ProcResult := fun _ => .skip

/-- C3 counterexample: a reference whose process call returns None contributes
neither a success entry nor an error entry, so one reference yields zero
contributions, not exactly one. -/
theorem c3_counterexample :
    (runParser skipProcess [missingnoRef]).summaryData = [] ∧
    (runParser skipProcess [missingnoRef]).errors = [] ∧
    [missingnoRef].length = 1 := by
  exact ⟨by decide, by decide, by decide⟩

/-- Ten references used by the partial failure scenario. -/
def tenRefs : List ResourceRef :=
  [⟨"r1", "u1"⟩, ⟨"r2", "u2"⟩, ⟨"r3", "u3"⟩, ⟨"r4", "u4"⟩, ⟨"r5", "u5"⟩,
   ⟨"r6", "u6"⟩, ⟨"r7", "u7"⟩, ⟨"r8", "u8"⟩, ⟨"r9", "u9"⟩, ⟨"r10", "u10"⟩]

/-- The process function of the partial failure scenario: reference r4 always
errors, every other reference succeeds with a summary dict. -/
def erringProcess : ResourceRef → ProcResult := fun r =>
  if r.name == "r4" then .failure ("Parsing failed for " ++ r.name)
  else .success ⟨r.name, 0⟩

/-- C3 (amended): the run never aborts and records every error, but a
reference contributes the number of entries its result carries — one for a
dict, the list length for a list, zero for None — so the summary length is
the sum of contributions and the error count is the number of error results;
in the ten-reference scenario with one erroring reference and no None results
there are exactly nine successes and one recorded error. -/
theorem c3_contribution_counts :
    (∀ (process : ResourceRef → ProcResult) (refs : List ResourceRef),
      (runParser process refs).summaryData.length
          = ((refs.map process).map contribution).sum ∧
      (runParser process refs).errors.length
          = (refs.map process).countP ProcResult.isFailure) ∧
    ((runParser erringProcess tenRefs).summaryData.length = 9 ∧
      (runParser erringProcess tenRefs).errors = ["Parsing failed for r4"]) := by
  constructor
  · intro process refs
    have h := collect_foldl_counts (refs.map process) ⟨[], []⟩
    constructor
    · simp only [runParser, length_sortByKey, collectResults]
      simpa using h.1
    · simp only [runParser, collectResults]
      simpa using h.2
  · exact ⟨by decide, by decide⟩

/-- GenerationParser._get_all_item_refs: iterate the generations from 1 to the
target, append each generation's resources on success, and on an exception
only log and continue with the next generation; a falsy target yields no
references. -/
def getAllItemRefs (fetchGen : Nat → Except String (List ResourceRef))
    (targetGen : Nat) : List ResourceRef :=
  if targetGen = 0 then []
  else
    (List.range' 1 targetGen).foldl
      (fun acc g =>
        match fetchGen g with
        | .ok refs => acc ++ refs
        | .error _ => acc) []

/-- main from __main__.py around its fatal handler: the initial gathering of
the epoch index either fails — the exception is caught at the top level and
the process exits — or succeeds and the parsers run on its result. -/
def mainRun {α β : Type} (gatherInitial : Except String α) (runAll : α → β) :
    Except String β :=
  match gatherInitial with
  | .error e => .error e
  | .ok a => .ok (runAll a)

/-- The generation fetcher of the C7 counterexample: generation 1 errors,
every other generation returns one move reference. -/
def failingFetch : Nat → Except String (List ResourceRef) := fun g =>
  if g = 1 then .error "Failed to fetch Move data for Generation 1"
  else .ok [⟨"pound", "url-pound"⟩]

/-- C7 counterexample: with the enumeration of generation 1 failing, discovery
still returns the references of generation 2 and the run processes that
partial list to a normal outcome instead of aborting. -/
theorem c7_counterexample :
    failingFetch 1 = .error "Failed to fetch Move data for Generation 1" ∧
    getAllItemRefs failingFetch 2 = [⟨"pound", "url-pound"⟩] ∧
    runParser (fun r => .success ⟨r.name, 1⟩) (getAllItemRefs failingFetch 2)
      = ⟨[⟨"pound", 1⟩], []⟩ := by
  exact ⟨rfl, by decide, by decide⟩

theorem getAllItemRefs_foldl_eq (fetchGen : Nat → Except String (List ResourceRef))
    (l : List Nat) (acc : List ResourceRef) :
    l.foldl
        (fun acc g =>
          match fetchGen g with
          | .ok refs => acc ++ refs
          | .error _ => acc) acc
      = acc ++ (l.filterMap
          (fun g =>
            match fetchGen g with
            | .ok refs => some refs
            | .error _ => none)).flatten := by
  induction l generalizing acc with
  | nil => simp
  | cons g rest ih =>
    rw [List.foldl_cons, List.filterMap_cons]
    cases hfg : fetchGen g with
    | ok refs =>
      dsimp only
      rw [ih, List.flatten_cons, List.append_assoc]
    | error e =>
      dsimp only
      rw [ih]

/-- C7 (amended): a failure to determine the epoch index is fatal — the error
propagates out of mainRun and no parser runs — whereas a failure to enumerate
one generation's resources during discovery is swallowed: the reference list
is the concatenation of the successfully fetched generations only, and the
run continues on that partial list. -/
theorem c7_discovery_errors {α β : Type} :
    (∀ (e : String) (runAll : α → β), mainRun (.error e) runAll = .error e) ∧
    (∀ (fetchGen : Nat → Except String (List ResourceRef)) (targetGen : Nat),
      getAllItemRefs fetchGen targetGen =
        ((List.range' 1 targetGen).filterMap
          (fun g =>
            match fetchGen g with
            | .ok refs => some refs
            | .error _ => none)).flatten) := by
  constructor
  · intro e runAll
    rfl
  · intro fetchGen targetGen
    rw [getAllItemRefs]
    by_cases h0 : targetGen = 0
    · subst h0; rfl
    · rw [if_neg h0, getAllItemRefs_foldl_eq]
      simp

/-- Lookup in an association list used as a dict, taking the newest binding;
insertion is modelled by prepending. -/
def lookupAssoc {β : Type} (l : List (String × β)) (k : String) : Option β :=
  (l.find? (fun p => p.1 == k)).map Prod.snd

/-- Configuration of the ApiClient: whether a parser_cache_dir is configured
and the optional cache_expires seconds. -/
structure ClientConfig where
  hasCacheDir : Bool
  cacheExpires : Option Int
deriving DecidableEq

/-- One on-disk cache file: its payload and its modification time. -/
structure CacheFile where
  payload : JValue
  mtime : Int
deriving DecidableEq

/-- The mutable state of the ApiClient: the in-memory cache and the cache
directory contents, each keyed by url (the file name is an injective hash of
the url). -/
structure ClientState where
  memCache : List (String × JValue)
  files : List (String × CacheFile)
deriving DecidableEq

/-- The observable outcome of one ApiClient.get call: the returned payload,
the state afterwards, and whether the call performed a network fetch, read a
cache file, or wrote a cache file. -/
structure GetResult where
  payload : JValue
  state : ClientState
  fetched : Bool
  readFile : Bool
  wroteFile : Bool
deriving DecidableEq

/-- ApiClient.get from api_client.py: return a memory hit at once; otherwise,
when a cache directory is configured and cache_expires is not None, read a
cache file younger than the expiry into memory and return it; otherwise fetch
from the network, store in memory, and write the cache file exactly when the
cache file path was computed (a directory and a non-None expiry, including an
expiry of zero). -/
def apiGet (cfg : ClientConfig) (remote : String → JValue) (st : ClientState)
    (url : String) (now : Int) : GetResult :=
  match lookupAssoc st.memCache url with
  | some d => ⟨d, st, false, false, false⟩
  | none =>
    let fileEnabled := cfg.hasCacheDir && cfg.cacheExpires.isSome
    let cached :=
      if fileEnabled then
        match lookupAssoc st.files url, cfg.cacheExpires with
        | some cf, some expires =>
          if now - cf.mtime < expires then some cf.payload else none
        | _, _ => none
      else none
    match cached with
    | some d =>
      ⟨d, { st with memCache := (url, d) :: st.memCache }, false, true, false⟩
    | none =>
      let d := remote url
      let st1 := { st with memCache := (url, d) :: st.memCache }
      if fileEnabled then
        ⟨d, { st1 with files := (url, ⟨d, now⟩) :: st1.files }, true, false, true⟩
      else ⟨d, st1, true, false, false⟩

/-- A client configuration with a cache directory and a ten-second expiry. -/
def cfgTtl10 : ClientConfig := ⟨true, some 10⟩

/-- A client configuration with a cache directory and a zero expiry. -/
def cfgTtl0 : ClientConfig := ⟨true, some 0⟩

/-- A client configuration with no cache directory and no expiry. -/
def cfgNoCache : ClientConfig := ⟨false, none⟩

/-- A remote endpoint returning the number one for every url. -/
def remoteConst : String → JValue := fun _ => .num 1

/-- The client state at process start: empty memory cache, empty directory. -/
def emptyClientState : ClientState := ⟨[], []⟩

/-- C4 counterexample: from a cold start with a ten-second expiry, the first
call fetches, the second call five seconds later hits memory, and a third
call long after the expiry still performs no fetch, because the in-memory
cache never expires within the process. -/
theorem c4_counterexample :
    (apiGet cfgTtl10 remoteConst emptyClientState "u" 0).fetched = true ∧
    (apiGet cfgTtl10 remoteConst
        (apiGet cfgTtl10 remoteConst emptyClientState "u" 0).state "u" 5).fetched
      = false ∧
    (apiGet cfgTtl10 remoteConst
        (apiGet cfgTtl10 remoteConst
          (apiGet cfgTtl10 remoteConst emptyClientState "u" 0).state "u" 5).state
        "u" 1000).fetched = false := by
  exact ⟨by decide, by decide, by decide⟩

theorem lookupAssoc_after_apiGet (cfg : ClientConfig) (remote : String → JValue)
    (st : ClientState) (url : String) (now : Int) :
    lookupAssoc (apiGet cfg remote st url now).state.memCache url
      = some (apiGet cfg remote st url now).payload := by
  rw [apiGet]
  cases hm : lookupAssoc st.memCache url with
  | some d => exact hm
  | none =>
    dsimp only
    split
    · simp [lookupAssoc]
    · split
      · simp [lookupAssoc]
      · simp [lookupAssoc]

/-- C4 (amended): from a state whose memory and directory lack the url, a
call performs a network fetch; after any call, the in-memory cache holds the
url for the rest of the process, so every further call for that url — at any
later time, even past the expiry — returns the same payload with no network
fetch, no file read, no file write, and no state change.  A post-expiry
refetch can only happen in a process whose memory lacks the entry. -/
theorem c4_memory_never_expires (cfg : ClientConfig) (remote : String → JValue)
    (st : ClientState) (url : String) (now1 now2 : Int)
    (hcold : lookupAssoc st.memCache url = none ∧
      lookupAssoc st.files url = none) :
    (apiGet cfg remote st url now1).fetched = true ∧
    apiGet cfg remote (apiGet cfg remote st url now1).state url now2
      = ⟨(apiGet cfg remote st url now1).payload,
          (apiGet cfg remote st url now1).state, false, false, false⟩ := by
  constructor
  · rw [apiGet, hcold.1]
    dsimp only
    have hnone :
        (if cfg.hasCacheDir && cfg.cacheExpires.isSome then
          match lookupAssoc st.files url, cfg.cacheExpires with
          | some cf, some expires =>
            if now1 - cf.mtime < expires then some cf.payload else none
          | _, _ => none
        else none) = (none : Option JValue) := by
      rw [hcold.2]
      cases cfg.cacheExpires <;> simp
    rw [hnone]
    dsimp only
    split <;> rfl
  · have hmem := lookupAssoc_after_apiGet cfg remote st url now1
    rw [apiGet, hmem]

/-- Witness for C4: the amended statement at the concrete cold scenario. -/
theorem c4_memory_never_expires_witness :
    (lookupAssoc emptyClientState.memCache "u" = none ∧
      lookupAssoc emptyClientState.files "u" = none) ∧
    ((apiGet cfgTtl10 remoteConst emptyClientState "u" 0).fetched = true ∧
      apiGet cfgTtl10 remoteConst
          (apiGet cfgTtl10 remoteConst emptyClientState "u" 0).state "u" 1000
        = ⟨(apiGet cfgTtl10 remoteConst emptyClientState "u" 0).payload,
            (apiGet cfgTtl10 remoteConst emptyClientState "u" 0).state,
            false, false, false⟩) :=
  ⟨⟨by decide, by decide⟩,
    c4_memory_never_expires cfgTtl10 remoteConst emptyClientState "u" 0 1000
      ⟨by decide, by decide⟩⟩

/-- C6 counterexample: with a cache directory configured and a zero expiry,
a cold call fetches and writes a cache file, so the on-disk cache directory
is changed — a zero TTL does not disable file-level caching. -/
theorem c6_counterexample :
    (apiGet cfgTtl0 remoteConst emptyClientState "u" 0).wroteFile = true ∧
    (apiGet cfgTtl0 remoteConst emptyClientState "u" 0).state.files
      ≠ emptyClientState.files := by
  exact ⟨by decide, by decide⟩

/-- C6 (amended): an absent expiry or an absent cache directory disables
file-level caching entirely — no call reads or writes a cache file — while a
zero expiry only disables cache reads (for files whose modification time is
not in the future): cache files are still written on every network fetch. -/
theorem c6_zero_ttl_reads (cfg : ClientConfig) (remote : String → JValue)
    (st : ClientState) (url : String) (now : Int)
    (h : cfg.cacheExpires = none ∨ cfg.hasCacheDir = false ∨
      (cfg.cacheExpires = some 0 ∧
        ∀ cf, lookupAssoc st.files url = some cf → cf.mtime ≤ now)) :
    (apiGet cfg remote st url now).readFile = false ∧
    ((cfg.cacheExpires = none ∨ cfg.hasCacheDir = false) →
      (apiGet cfg remote st url now).wroteFile = false) := by
  have hnone :
      (if cfg.hasCacheDir && cfg.cacheExpires.isSome then
        match lookupAssoc st.files url, cfg.cacheExpires with
        | some cf, some expires =>
          if now - cf.mtime < expires then some cf.payload else none
        | _, _ => none
      else none) = (none : Option JValue) := by
    rcases h with h | h | ⟨h0, hmt⟩
    · rw [h]; simp
    · rw [h]; simp
    · rw [h0]
      cases hf : lookupAssoc st.files url with
      | none => simp [hf]
      | some cf =>
        have := hmt cf hf
        have hlt : ¬ now - cf.mtime < 0 := by omega
        simp [hf, hlt]
  constructor
  · rw [apiGet]
    cases hm : lookupAssoc st.memCache url with
    | some d => rfl
    | none =>
      dsimp only
      rw [hnone]
      dsimp only
      split <;> rfl
  · intro hdis
    have hfe : (cfg.hasCacheDir && cfg.cacheExpires.isSome) = false := by
      rcases hdis with h | h <;> rw [h] <;> simp
    rw [apiGet]
    cases hm : lookupAssoc st.memCache url with
    | some d => rfl
    | none =>
      dsimp only
      rw [hnone]
      dsimp only
      rw [hfe]
      rfl

/-- Witness for C6: the amended statement at a configuration with no cache
directory and no expiry, where both hypotheses discharge. -/
theorem c6_zero_ttl_reads_witness :
    (cfgNoCache.cacheExpires = none ∨ cfgNoCache.hasCacheDir = false ∨
      (cfgNoCache.cacheExpires = some 0 ∧
        ∀ cf, lookupAssoc emptyClientState.files "u" = some cf →
          cf.mtime ≤ 0)) ∧
    (apiGet cfgNoCache remoteConst emptyClientState "u" 0).readFile = false ∧
    (apiGet cfgNoCache remoteConst emptyClientState "u" 0).wroteFile = false :=
  ⟨Or.inl (by decide),
    (c6_zero_ttl_reads cfgNoCache remoteConst emptyClientState "u" 0
      (Or.inl (by decide))).1,
    (c6_zero_ttl_reads cfgNoCache remoteConst emptyClientState "u" 0
      (Or.inl (by decide))).2 (Or.inl (by decide))⟩

/-- One ability slot of a Pokémon as kept in the cleaned abilities list. -/
structure PokemonAbility where
  name : String
  isHidden : Bool
deriving DecidableEq

/-- One effort value yield entry of the cleaned record. -/
structure EvStat where
  stat : String
  effort : Nat
deriving DecidableEq

/-- The fields of the cleaned Pokémon record touched by
PokemonParser._apply_historical_changes. -/
structure PokemonData where
  abilities : List PokemonAbility
  stats : List (String × Nat)
  types : List String
  baseExperience : Option Nat
  baseHappiness : Option Nat
  captureRate : Option Nat
  evYield : List EvStat
deriving DecidableEq

/-- The changed fields of one scraped change; a key the change does not carry
is None. -/
structure ScrapedChangeFields where
  ability : Option String
  stats : Option (List (String × Nat))
  types : Option (List String)
  baseExperience : Option Nat
  baseHappiness : Option Nat
  captureRate : Option Nat
  evYield : Option (List EvStat)
deriving DecidableEq

/-- One scraped change item: the generations it applies to and its changed
fields. -/
structure ScrapedChangeItem where
  generations : List Nat
  change : ScrapedChangeFields
deriving DecidableEq

/-- Renaming of the first non-hidden ability, as the ability branch of
_apply_historical_changes does with its enumerate loop and break. -/
def renameFirstNonHidden (a : String) : List PokemonAbility → List PokemonAbility
  | [] => []
  | ab :: rest =>
    if ab.isHidden then ab :: renameFirstNonHidden a rest
    else { ab with name := a } :: rest

/-- Python dict assignment on an association list with unique keys: replace
the first binding of the key or append a new one. -/
def setAssoc : List (String × Nat) → String → Nat → List (String × Nat)
  | [], k, v => [(k, v)]
  | (k1, v1) :: rest, k, v =>
    if k1 == k then (k, v) :: rest else (k1, v1) :: setAssoc rest k v

/-- Python dict.update: assign every binding of the update dict in order. -/
def dictUpdate (base upd : List (String × Nat)) : List (String × Nat) :=
  upd.foldl (fun b p => setAssoc b p.1 p.2) base

/-- Application of the changed fields of one matching scraped change, in the
order of the branches of _apply_historical_changes: ability, stats, types,
base_experience, base_happiness, capture_rate, ev_yield. -/
def applyScrapedChange (d : PokemonData) (c : ScrapedChangeFields) :
    PokemonData :=
  let d1 := match c.ability with
    | some a => { d with abilities := renameFirstNonHidden a d.abilities }
    | none => d
  let d2 := match c.stats with
    | some m => { d1 with stats := dictUpdate d1.stats m }
    | none => d1
  let d3 := match c.types with
    | some ts => { d2 with types := ts }
    | none => d2
  let d4 := match c.baseExperience with
    | some b => { d3 with baseExperience := some b }
    | none => d3
  let d5 := match c.baseHappiness with
    | some b => { d4 with baseHappiness := some b }
    | none => d4
  let d6 := match c.captureRate with
    | some b => { d5 with captureRate := some b }
    | none => d5
  match c.evYield with
  | some e => { d6 with evYield := e }
  | none => d6

/-- PokemonParser._apply_historical_changes: with a truthy target generation,
every change item whose generations contain the target generation is applied
to the record in list order, and every other item is skipped. -/
def applyHistoricalChanges (targetGen : Nat) (changes : List ScrapedChangeItem)
    (d : PokemonData) : PokemonData :=
  if targetGen = 0 then d
  else
    changes.foldl
      (fun acc ci =>
        if ci.generations.contains targetGen then applyScrapedChange acc ci.change
        else acc) d

theorem foldl_if_filter {α β : Type} (p : α → Bool) (f : β → α → β)
    (l : List α) (b : β) :
    l.foldl (fun acc x => if p x then f acc x else acc) b
      = (l.filter p).foldl f b := by
  induction l generalizing b with
  | nil => rfl
  | cons x xs ih =>
    rw [List.foldl_cons, List.filter_cons]
    cases hp : p x
    · simp only [Bool.false_eq_true, if_false]
      exact ih b
    · simp only [if_true]
      rw [List.foldl_cons]
      exact ih (f b x)

theorem applyScrapedChange_fields (d : PokemonData) (c : ScrapedChangeFields) :
    applyScrapedChange d c =
      { abilities := match c.ability with
          | some a => renameFirstNonHidden a d.abilities
          | none => d.abilities,
        stats := match c.stats with
          | some m => dictUpdate d.stats m
          | none => d.stats,
        types := match c.types with
          | some ts => ts
          | none => d.types,
        baseExperience := match c.baseExperience with
          | some b => some b
          | none => d.baseExperience,
        baseHappiness := match c.baseHappiness with
          | some b => some b
          | none => d.baseHappiness,
        captureRate := match c.captureRate with
          | some b => some b
          | none => d.captureRate,
        evYield := match c.evYield with
          | some e => e
          | none => d.evYield } := by
  obtain ⟨ca, cs, ct, cbe, cbh, ccr, cev⟩ := c
  cases ca <;> cases cs <;> cases ct <;> cases cbe <;> cases cbh <;>
    cases ccr <;> cases cev <;> rfl

/-- C5: for a record with a truthy target generation whose scraped change
list has exactly one item applicable to the target generation — in particular
when the primary source had no override events and the scraper produced one
matching change — the projected output reflects that change: the whole result
is the change merged into the current baseline, and each changed field takes
the scraped value. -/
theorem c5_scraper_fallback (targetGen : Nat) (changes : List ScrapedChangeItem)
    (d : PokemonData) (ci : ScrapedChangeItem) (h0 : targetGen ≠ 0)
    (h1 : changes.filter (fun c => c.generations.contains targetGen) = [ci]) :
    applyHistoricalChanges targetGen changes d = applyScrapedChange d ci.change ∧
    (∀ n, ci.change.captureRate = some n →
      (applyHistoricalChanges targetGen changes d).captureRate = some n) ∧
    (∀ ts, ci.change.types = some ts →
      (applyHistoricalChanges targetGen changes d).types = ts) ∧
    (∀ m, ci.change.stats = some m →
      (applyHistoricalChanges targetGen changes d).stats = dictUpdate d.stats m) ∧
    (∀ a, ci.change.ability = some a →
      (applyHistoricalChanges targetGen changes d).abilities
        = renameFirstNonHidden a d.abilities) ∧
    (∀ e, ci.change.evYield = some e →
      (applyHistoricalChanges targetGen changes d).evYield = e) := by
  have hmain : applyHistoricalChanges targetGen changes d
      = applyScrapedChange d ci.change := by
    rw [applyHistoricalChanges, if_neg h0, foldl_if_filter, h1, List.foldl_cons,
      List.foldl_nil]
  refine ⟨hmain, ?_, ?_, ?_, ?_, ?_⟩
  · intro n hn
    rw [hmain, applyScrapedChange_fields, hn]
  · intro ts hts
    rw [hmain, applyScrapedChange_fields, hts]
  · intro m hm
    rw [hmain, applyScrapedChange_fields, hm]
  · intro a ha
    rw [hmain, applyScrapedChange_fields, ha]
  · intro e he
    rw [hmain, applyScrapedChange_fields, he]

/-- A cleaned baseline record used by the C5 witness. -/
def mewtwoBase : PokemonData :=
  ⟨[⟨"pressure", false⟩, ⟨"unnerve", true⟩],
    [("hp", 106), ("special-attack", 154), ("special-defense", 90)],
    ["psychic"], some 340, some 0, some 3, [⟨"special-attack", 3⟩]⟩

/-- The single matching scraped change of the C5 witness: generation 1 types
and capture rate. -/
def mewtwoChange : ScrapedChangeItem :=
  ⟨[1], ⟨none, some [("special-attack", 154), ("special-defense", 154)], none,
    none, none, some 3, none⟩⟩

/-- Witness for C5: the statement applied at a concrete record with exactly
one matching change. -/
theorem c5_scraper_fallback_witness :
    ((1 : Nat) ≠ 0 ∧
      [mewtwoChange].filter (fun c => c.generations.contains 1) = [mewtwoChange]) ∧
    (applyHistoricalChanges 1 [mewtwoChange] mewtwoBase).stats
      = dictUpdate mewtwoBase.stats [("special-attack", 154), ("special-defense", 154)] ∧
    (applyHistoricalChanges 1 [mewtwoChange] mewtwoBase).captureRate = some 3 :=
  ⟨⟨by decide, by decide⟩,
    (c5_scraper_fallback 1 [mewtwoChange] mewtwoBase mewtwoChange (by decide)
        (by decide)).2.2.2.1 _ rfl,
    (c5_scraper_fallback 1 [mewtwoChange] mewtwoBase mewtwoChange (by decide)
        (by decide)).2.1 3 rfl⟩

mutual
/-- One node of an evolution chain as fetched from the API, paired with the
introduction generation of its species (the generation number the code reads
from the species payload of each child). -/
inductive EvoChain where
  | node (species : String) (introGen : Nat) (evolvesTo : EvoChainList)

/-- The evolves_to list of an evolution chain node. -/
inductive EvoChainList where
  | nil
  | cons (c : EvoChain) (cs : EvoChainList)
end

/-- The species name of a node. -/
def EvoChain.species : EvoChain → String
  | .node s _ _ => s

/-- The introduction generation of a node. -/
def EvoChain.introGen : EvoChain → Nat
  | .node _ g _ => g

mutual
/-- recurse_chain from PokemonParser._get_evolution_chain: the root is kept
unconditionally and the children are filtered and recursed. -/
def pruneChain (targetGen : Nat) : EvoChain → EvoChain
  | .node s g cs => .node s g (pruneChildren targetGen cs)

/-- The loop over evolves_to: a child whose introduction generation exceeds
the target generation is skipped with its whole subtree; any other child is
kept and recursed into. -/
def pruneChildren (targetGen : Nat) : EvoChainList → EvoChainList
  | .nil => .nil
  | .cons c cs =>
    if c.introGen ≤ targetGen then
      .cons (pruneChain targetGen c) (pruneChildren targetGen cs)
    else pruneChildren targetGen cs
end

mutual
/-- Membership of a species name in a resolved tree. -/
def appearsIn (name : String) : EvoChain → Bool
  | .node s _ cs => s == name || appearsInList name cs

/-- Membership of a species name in a list of resolved subtrees. -/
def appearsInList (name : String) : EvoChainList → Bool
  | .nil => false
  | .cons c cs => appearsIn name c || appearsInList name cs
end

mutual
/-- The amended presence characterization, stated on the unpruned chain: a
name appears through a node when the node carries it or some child with
introduction generation at most the target leads to it — that is, every edge
on the path below the root passes the generation test. -/
def appearsEligible (targetGen : Nat) (name : String) : EvoChain → Bool
  | .node s _ cs => s == name || appearsEligibleList targetGen name cs

/-- List form of the amended presence characterization. -/
def appearsEligibleList (targetGen : Nat) (name : String) : EvoChainList → Bool
  | .nil => false
  | .cons c cs =>
    (decide (c.introGen ≤ targetGen) && appearsEligible targetGen name c)
      || appearsEligibleList targetGen name cs
end

mutual
theorem appearsIn_pruneChain (t : Nat) (name : String) :
    ∀ c : EvoChain, appearsIn name (pruneChain t c) = appearsEligible t name c
  | .node s g cs => by
    rw [pruneChain, appearsIn, appearsEligible,
      appearsInList_pruneChildren t name cs]

theorem appearsInList_pruneChildren (t : Nat) (name : String) :
    ∀ cs : EvoChainList,
      appearsInList name (pruneChildren t cs) = appearsEligibleList t name cs
  | .nil => rfl
  | .cons c cs => by
    rw [pruneChildren]
    by_cases h : c.introGen ≤ t
    · rw [if_pos h, appearsInList, appearsIn_pruneChain t name c,
        appearsInList_pruneChildren t name cs, appearsEligibleList]
      simp [h]
    · rw [if_neg h, appearsInList_pruneChildren t name cs, appearsEligibleList]
      simp [h]
end

/-- C8 (amended): a species appears in the resolved tree exactly when it
labels the root or is reachable from the root through child edges that all
satisfy the generation test — so a child whose introduction generation
exceeds the target is absent with its entire subtree, and a child with an
eligible generation is present only when all its ancestors below the root are
eligible too. -/
theorem c8_evolution_pruning (t : Nat) (name : String) (c : EvoChain) :
    appearsIn name (pruneChain t c) = appearsEligible t name c :=
  appearsIn_pruneChain t name c

/-- The chain of the C8 counterexample: root a of generation 1, its child b
of generation 5, and b's child c of generation 3. -/
def chainRootA : EvoChain :=
  .node "a" 1 (.cons (.node "b" 5 (.cons (.node "c" 3 .nil) .nil)) .nil)

/-- C8 counterexample: species c has introduction generation 3, at most the
target 4, yet it is absent from the resolution for target 4 because its
parent b of generation 5 is dropped with its entire subtree. -/
theorem c8_counterexample :
    (EvoChain.node "c" 3 .nil).introGen ≤ 4 ∧
    appearsIn "c" chainRootA = true ∧
    appearsIn "c" (pruneChain 4 chainRootA) = false ∧
    appearsIn "c" (pruneChain 5 chainRootA) = true := by
  exact ⟨by decide, by decide, by decide, by decide⟩

/-- Test that the second character list starts with the first one. -/
def startsWithChars : List Char → List Char → Bool
  | [], _ => true
  | _ :: _, [] => false
  | p :: ps, c :: cs => p == c && startsWithChars ps cs

/-- The Python substring test (pattern in text) on character lists. -/
def containsSub (pat : List Char) : List Char → Bool
  | [] => startsWithChars pat []
  | c :: rest => startsWithChars pat (c :: rest) || containsSub pat rest

/-- Numeric value of a list of decimal digits. -/
def natOfDigits (ds : List Char) : Nat :=
  ds.foldl (fun acc c => acc * 10 + (c.toNat - 48)) 0

/-- A word character of the regex class of backslash w, over the ASCII texts
the scraper handles. -/
def isWordChar (c : Char) : Bool := c.isAlphanum || c == '_'

/-- A whitespace character of the regex class of backslash s. -/
def isSpaceChar (c : Char) : Bool :=
  c == ' ' || c == '\t' || c == '\n' || c == '\r' || c == '\x0B' || c == '\x0C'

/-- Match, at the start of the text, a literal followed by one or more digits,
returning the greedy digit run's value; models matching the scraper regexes of
the form literal plus a digit group at a fixed position. -/
def matchLitNumAt (lit text : List Char) : Option Nat :=
  if startsWithChars lit text then
    let ds := (text.drop lit.length).takeWhile Char.isDigit
    if ds.isEmpty then none else some (natOfDigits ds)
  else none

/-- re.search of a literal followed by a digit group: try every start
position left to right and take the first full match. -/
def searchLitNum (lit : List Char) : List Char → Option Nat
  | [] => matchLitNumAt lit []
  | c :: rest =>
    match matchLitNumAt lit (c :: rest) with
    | some n => some n
    | none => searchLitNum lit rest

/-- Match, at the start of the text, the EV yield pattern (has, a digit
group, a space, a greedy word-or-space group, then a space and EV), with the
greedy backtracking of the middle group: the longest word-or-space run that
is still followed by the EV literal wins. -/
def matchEvAt (text : List Char) : Option (Nat × List Char) :=
  if startsWithChars "has ".data text then
    let rest1 := text.drop 4
    let ds := rest1.takeWhile Char.isDigit
    if ds.isEmpty then none
    else
      match rest1.drop ds.length with
      | ' ' :: rest3 =>
        let maxRun :=
          (rest3.takeWhile (fun c => isWordChar c || isSpaceChar c)).length
        (List.range maxRun).reverse.findSome? (fun jm =>
          if startsWithChars " EV".data (rest3.drop (jm + 1)) then
            some (natOfDigits ds, rest3.take (jm + 1))
          else none)
      | _ => none
  else none

/-- re.search of the EV yield pattern: first start position with a full
match. -/
def searchEv : List Char → Option (Nat × List Char)
  | [] => matchEvAt []
  | c :: rest =>
    match matchEvAt (c :: rest) with
    | some r => some r
    | none => searchEv rest

/-- The Python strip of leading and trailing whitespace. -/
def stripChars (l : List Char) : List Char :=
  ((l.dropWhile isSpaceChar).reverse.dropWhile isSpaceChar).reverse

/-- Lower casing of a character list. -/
def lowerChars (l : List Char) : List Char := l.map Char.toLower

/-- Helper of the digit grouping: the first argument accumulates the current
digit run in reverse. -/
def findAllNatsGo : List Char → List Char → List Nat
  | run, [] => if run.isEmpty then [] else [natOfDigits run.reverse]
  | run, c :: rest =>
    if c.isDigit then findAllNatsGo (c :: run) rest
    else if run.isEmpty then findAllNatsGo [] rest
    else natOfDigits run.reverse :: findAllNatsGo [] rest

/-- re.findall of the digit group pattern: the values of the maximal digit
runs of the text, in order. -/
def findAllNats (l : List Char) : List Nat := findAllNatsGo [] l

/-- parse_gen_range from utils/text_utils.py: lower the text, require the
generation keyword, and turn one number into a singleton or two numbers into
the closed range; anything else is None. -/
def parseGenRange (gt : List Char) : Option (List Nat) :=
  let normalized := lowerChars gt
  if containsSub "generation".data normalized then
    match findAllNats normalized with
    | [n] => some [n]
    | [n1, n2] => some (List.range' n1 (n2 + 1 - n1))
    | _ => none
  else none

/-- A structured change extracted by one scraper rule. -/
inductive ScrapedField where
  | ability (name : String)
  | types (ts : List String)
  | baseExperience (n : Nat)
  | baseHappiness (n : Nat)
  | captureRate (n : Nat)
  | stats (pairs : List (String × Nat))
  | evYield (effort : Nat) (stat : String)
deriving DecidableEq

/-- One change log list item as the scraper sees it: the full text of the
item, the text of its abbr tag when present, and the pre-extracted link data
the tag-based handlers read (the ability link text and the itype link
texts, already lower cased as the handlers do). -/
structure ScrapeItem where
  text : List Char
  genText : Option (List Char)
  abilityLink : Option String
  typeLinks : List String
deriving DecidableEq

/-- The ability handler: the first ability link of the item, if any. -/
def parseAbilityRule (item : ScrapeItem) : Option ScrapedField :=
  item.abilityLink.map ScrapedField.ability

/-- The types handler: all itype links of the item, when there are any. -/
def parseTypesRule (item : ScrapeItem) : Option ScrapedField :=
  if item.typeLinks.isEmpty then none else some (.types item.typeLinks)

/-- The simple stat handler factory: search the text for the of-number
pattern. -/
def parseSimpleStatRule (mk : Nat → ScrapedField) (item : ScrapeItem) :
    Option ScrapedField :=
  (searchLitNum "of ".data item.text).map mk

/-- The base stat handler factory: like the simple stat handler but wrapping
the value into a one-entry stats dict. -/
def parseBaseStatRule (statName : String) (item : ScrapeItem) :
    Option ScrapedField :=
  (searchLitNum "of ".data item.text).map (fun n => .stats [(statName, n)])

/-- The special stat handler: the Gen 1 Special stat feeds both modern
special stats. -/
def parseSpecialStatRule (item : ScrapeItem) : Option ScrapedField :=
  (searchLitNum "base Special stat of ".data item.text).map
    (fun n => .stats [("special-attack", n), ("special-defense", n)])

/-- The stat name translation table of the EV yield handler. -/
def statNameMap : List (List Char × String) :=
  [("hp".data, "hp"), ("attack".data, "attack"), ("defense".data, "defense"),
   ("special attack".data, "special-attack"),
   ("special defense".data, "special-defense"), ("speed".data, "speed")]

/-- The EV yield handler: search the EV pattern, strip and lower the stat
words, and translate them; an unknown stat name extracts nothing. -/
def parseEvYieldRule (item : ScrapeItem) : Option ScrapedField :=
  match searchEv item.text with
  | some (effort, grp) =>
    match (statNameMap.find? (fun p => p.1 == lowerChars (stripChars grp))).map
        Prod.snd with
    | some stat => some (.evYield effort stat)
    | none => none
  | none => none

/-- The ordered rule table of scrape_pokemon_changes (scraper.py lines
121-135): substring pattern paired with extractor. -/
def scraperRules : List (List Char × (ScrapeItem → Option ScrapedField)) :=
  [("ability".data, parseAbilityRule),
   ("type".data, parseTypesRule),
   ("base experience yield".data, parseSimpleStatRule .baseExperience),
   ("base Friendship value".data, parseSimpleStatRule .baseHappiness),
   ("catch rate".data, parseSimpleStatRule .captureRate),
   ("EVs".data, parseEvYieldRule),
   ("base Special stat".data, parseSpecialStatRule),
   ("base HP".data, parseBaseStatRule "hp"),
   ("base Attack".data, parseBaseStatRule "attack"),
   ("base Defense".data, parseBaseStatRule "defense"),
   ("base Special Attack".data, parseBaseStatRule "special-attack"),
   ("base Special Defense".data, parseBaseStatRule "special-defense"),
   ("base Speed".data, parseBaseStatRule "speed")]

/-- Processing of one change log item in scrape_pokemon_changes: an item
without an abbr tag or without a parsable nonempty generation range yields
nothing; otherwise the rules are tried in order and the loop breaks at the
first rule whose pattern occurs in the text and whose extractor returns a
change — a rule whose pattern occurs but whose extractor returns nothing does
not break the loop. -/
def processItem (item : ScrapeItem) : Option (List Nat × ScrapedField) :=
  match item.genText with
  | none => none
  | some gt =>
    match parseGenRange gt with
    | none => none
    | some gens =>
      if gens.isEmpty then none
      else
        (scraperRules.findSome? (fun rule =>
          if containsSub rule.1 item.text then rule.2 item else none)).map
          (fun change => (gens, change))

/-- The whole scrape over the change list items: each item contributes at
most one recorded change, in item order. -/
def scrapeChangesItems (items : List ScrapeItem) :
    List (List Nat × ScrapedField) :=
  items.filterMap processItem

/-- A definition following the claim words, for comparison with processItem:
the first rule whose pattern occurs in the text wins outright, its extractor
result alone deciding the recorded change of the item. -/
def specFirstPatternRule (item : ScrapeItem) :
    Option (List Nat × ScrapedField) :=
  match item.genText with
  | none => none
  | some gt =>
    match parseGenRange gt with
    | none => none
    | some gens =>
      if gens.isEmpty then none
      else
        (scraperRules.find? (fun rule => containsSub rule.1 item.text)).bind
          (fun rule => (rule.2 item).map (fun change => (gens, change)))

/-- The list item text of the C9 counterexample. -/
def evChangeText : List Char :=
  "Generation 1: Its catch rate was lowered and it has 2 Speed EVs in later games.".data

/-- The list item of the C9 counterexample: its text mentions the catch rate
without an of-number phrase, and carries an EV yield phrase. -/
def evChangeItem : ScrapeItem :=
  ⟨evChangeText, some "Generation 1".data, none, []⟩

/-- A list item matched by no rule at all. -/
def unmatchedItem : ScrapeItem :=
  ⟨"no matching rule here".data, some "Generation 2".data, none, []⟩

/-- C9 counterexample: on this item the first rule whose pattern occurs is
the catch rate rule, whose extractor fails, so under the claim reading the
item records nothing; the code however continues to the EVs rule and records
an EV yield change. -/
theorem c9_counterexample :
    containsSub "catch rate".data evChangeItem.text = true ∧
    specFirstPatternRule evChangeItem = none ∧
    processItem evChangeItem = some ([1], .evYield 2 "speed") ∧
    processItem evChangeItem ≠ specFirstPatternRule evChangeItem := by
  exact ⟨by decide, by decide, by decide, by decide⟩

theorem findSome_eq_some_split {α β : Type} (f : α → Option β) (l : List α)
    (b : β) (h : l.findSome? f = some b) :
    ∃ l1 a l2, l = l1 ++ a :: l2 ∧ f a = some b ∧ ∀ x ∈ l1, f x = none := by
  induction l with
  | nil => simp [List.findSome?] at h
  | cons a rest ih =>
    rw [List.findSome?_cons] at h
    cases ha : f a with
    | some b2 =>
      rw [ha] at h
      obtain rfl : b2 = b := by simpa using h
      exact ⟨[], a, rest, rfl, ha, by simp⟩
    | none =>
      rw [ha] at h
      obtain ⟨l1, x, l2, rfl, hx, hall⟩ := ih h
      refine ⟨a :: l1, x, l2, rfl, hx, ?_⟩
      intro y hy
      rcases List.mem_cons.mp hy with rfl | hy
      · exact ha
      · exact hall y hy

/-- C9 (amended): when an item with a parsable nonempty generation range
records a change, the change comes from the earliest rule whose pattern
occurs in the item text and whose extractor succeeds — every earlier rule
either has no pattern match or an extractor miss, and only that single change
is recorded for the item — and an item that records nothing (unmatched text)
is skipped without affecting the changes of the surrounding items. -/
theorem c9_first_success_wins :
    (∀ (item : ScrapeItem) (gens : List Nat) (change : ScrapedField),
      processItem item = some (gens, change) →
      ∃ pre rule post,
        scraperRules = pre ++ rule :: post ∧
        containsSub rule.1 item.text = true ∧
        rule.2 item = some change ∧
        ∀ r ∈ pre, containsSub r.1 item.text = false ∨ r.2 item = none) ∧
    (∀ (pre post : List ScrapeItem) (item : ScrapeItem),
      processItem item = none →
      scrapeChangesItems (pre ++ item :: post)
        = scrapeChangesItems pre ++ scrapeChangesItems post) := by
  constructor
  · intro item gens change h
    rw [processItem] at h
    cases hgt : item.genText with
    | none => rw [hgt] at h; exact absurd h (by simp)
    | some gt =>
      rw [hgt] at h
      dsimp only at h
      cases hpr : parseGenRange gt with
      | none => rw [hpr] at h; exact absurd h (by simp)
      | some gens2 =>
        rw [hpr] at h
        dsimp only at h
        cases hemp : gens2.isEmpty with
        | true => rw [hemp] at h; exact absurd h (by simp)
        | false =>
          rw [hemp] at h
          simp only [Bool.false_eq_true, if_false, Option.map_eq_some'] at h
          obtain ⟨ch, hfind, hpair⟩ := h
          obtain ⟨rfl, rfl⟩ : gens2 = gens ∧ ch = change := by
            constructor <;> [exact congrArg Prod.fst hpair;
              exact congrArg Prod.snd hpair]
          obtain ⟨l1, rule, l2, heq, hr, hall⟩ :=
            findSome_eq_some_split _ scraperRules ch hfind
          refine ⟨l1, rule, l2, heq, ?_, ?_, ?_⟩
          · by_cases hc : containsSub rule.1 item.text = true
            · exact hc
            · rw [if_neg hc] at hr
              exact absurd hr (by simp)
          · by_cases hc : containsSub rule.1 item.text = true
            · rwa [if_pos hc] at hr
            · rw [if_neg hc] at hr
              exact absurd hr (by simp)
          · intro r hrin
            have := hall r hrin
            by_cases hc : containsSub r.1 item.text = true
            · rw [if_pos hc] at this
              exact Or.inr this
            · exact Or.inl (Bool.not_eq_true _ ▸ Bool.of_not_eq_true hc)
  · intro pre post item h
    rw [scrapeChangesItems, scrapeChangesItems, scrapeChangesItems,
      List.filterMap_append, List.filterMap_cons, h]

/-- Witness for C9: the amended statement at the concrete items. -/
theorem c9_first_success_wins_witness :
    processItem evChangeItem = some ([1], .evYield 2 "speed") ∧
    (∃ pre rule post,
      scraperRules = pre ++ rule :: post ∧
      containsSub rule.1 evChangeItem.text = true ∧
      rule.2 evChangeItem = some (.evYield 2 "speed") ∧
      ∀ r ∈ pre, containsSub r.1 evChangeItem.text = false ∨
        r.2 evChangeItem = none) ∧
    processItem unmatchedItem = none ∧
    scrapeChangesItems ([evChangeItem] ++ unmatchedItem :: [evChangeItem])
      = scrapeChangesItems [evChangeItem] ++ scrapeChangesItems [evChangeItem] :=
  ⟨by decide,
    c9_first_success_wins.1 evChangeItem [1] (.evYield 2 "speed") (by decide),
    by decide,
    c9_first_success_wins.2 [evChangeItem] [evChangeItem] unmatchedItem
      (by decide)⟩

end PokeDB
